import Mathlib

/-! Verification development for the core of `static_multimap`, from
`src/include/cuco/detail/static_multimap.inl`.

Keys and values are modelled as plain Lean values; a key value is identified
with its bit pattern, so "bit-pattern comparison" is structural (decidable)
equality on the modelled representation.  Atomic CAS in a sequential
(single worker at a time) execution succeeds exactly when the current word
equals the expected word, so a relaxed CAS on a word is modelled by an
equality test followed by a functional update.  Loops of the source become
fuel-indexed recursions: `none` means the loop has not produced a result
within the given fuel.
-/

namespace Cuco

/-- One slot of the table: an ordered pair of a key word and a value word
(`pair<Key, Value>` in the source). -/
structure Slot (K V : Type) where
  key : K
  value : V
deriving DecidableEq, Repr

/-- Enumeration of the possible results of attempting to insert into a hash
bucket (`insert_result`, source lines 25-29). -/
inductive insert_result where
  | CONTINUE
  | SUCCESS
  | DUPLICATE
deriving DecidableEq, Repr

/-- A non-owning view of the table: the slot array and the two sentinels
(the device views carry base pointer, capacity and sentinels). -/
structure View (K V : Type) where
  slots : List (Slot K V)
  empty_key_sentinel : K
  empty_value_sentinel : V
deriving DecidableEq, Repr

/-- Modelled from the spec: `detail::bitwise_compare` (declared in
`bitwise_compare.cuh`, which is not under `src/`): comparison of the raw bit
patterns of two words.  In this embedding a word is identified with its bit
pattern, so bit-pattern equality is structural equality. -/
def bitwise_compare {K : Type} [DecidableEq K] (a b : K) : Bool :=
  decide (a = b)

/-- Modelled from the spec: single-worker probing, `initial = h(k) mod capacity`
(`initial_slot` is declared in `static_multimap.cuh`, not under `src/`). -/
def initial_slot (cap h : Nat) : Nat := h % cap

/-- Modelled from the spec: single-worker probing, `next(i) = (i + 1) mod capacity`. -/
def next_slot (cap i : Nat) : Nat := (i + 1) % cap

/-- Modelled from the spec: group-cooperative probing,
`initial = (h(k) mod (capacity/W)) * W`. -/
def initial_slot_cg (cap w h : Nat) : Nat := (h % (cap / w)) * w

/-- Modelled from the spec: group-cooperative probing, the probe advances by
one window: `next(i) = (i + W) mod capacity`. -/
def next_slot_cg (cap w i : Nat) : Nat := (i + w) % cap

variable {K V : Type}

/-- Number of slots of the table. -/
def View.capacity (v : View K V) : Nat := v.slots.length

/-- The all-sentinel slot every slot is initialised to. -/
def View.emptySlot (v : View K V) : Slot K V :=
  ⟨v.empty_key_sentinel, v.empty_value_sentinel⟩

/-- Slot at probe position `i`; slot addresses wrap around the array. -/
def View.slotAt (v : View K V) (i : Nat) : Slot K V :=
  v.slots.getD (i % v.capacity) v.emptySlot

/-- Functional update of the slot at probe position `i`. -/
def View.setSlot (v : View K V) (i : Nat) (s : Slot K V) : View K V :=
  { v with slots := v.slots.set (i % v.capacity) s }

/-- Least lane `r < w` whose (boolean) predicate holds: the composition of the
group ballot with a lowest-set-bit extraction (`__ffs(g.ballot(pred)) - 1` in
the source); `none` when no lane satisfies the predicate (ballot mask 0). -/
def firstLane (p : Nat → Bool) : Nat → Option Nat
  | 0 => none
  | n + 1 =>
    match firstLane p n with
    | some r => some r
    | none => if p n then some n else none

/-- Single-worker `device_view::find` (source lines 322-339), one loop
iteration per unit of fuel.  Result: `some (some j)` = iterator to slot `j`,
`some none` = `end()` (key not present), `none` = fuel exhausted. -/
def View.findLoop [DecidableEq K] (v : View K V) (keq : K → K → Bool) (k : K)
    (i : Nat) : Nat → Option (Option Nat)
  | 0 => none
  | fuel + 1 =>
    let existing_key := (v.slotAt i).key
    if bitwise_compare existing_key v.empty_key_sentinel then some none
    else if keq existing_key k then some (some i)
    else v.findLoop keq k (next_slot v.capacity i) fuel

/-- Single-worker `device_view::find` from the initial probe slot of `k`. -/
def View.find [DecidableEq K] (v : View K V) (hash : K → Nat)
    (keq : K → K → Bool) (k : K) (fuel : Nat) : Option (Option Nat) :=
  v.findLoop keq k (initial_slot v.capacity (hash k)) fuel

/-- Single-worker `device_view::contains` (source lines 457-471). -/
def View.containsLoop [DecidableEq K] (v : View K V) (keq : K → K → Bool)
    (k : K) (i : Nat) : Nat → Option Bool
  | 0 => none
  | fuel + 1 =>
    let existing_key := (v.slotAt i).key
    if bitwise_compare existing_key v.empty_key_sentinel then some false
    else if keq existing_key k then some true
    else v.containsLoop keq k (next_slot v.capacity i) fuel

/-- Single-worker `device_view::contains` from the initial probe slot of `k`. -/
def View.contains [DecidableEq K] (v : View K V) (hash : K → Nat)
    (keq : K → K → Bool) (k : K) (fuel : Nat) : Option Bool :=
  v.containsLoop keq k (initial_slot v.capacity (hash k)) fuel

/-- Lane `r`'s emptiness test in the cooperative `find` and `contains`
(source lines 385-386, 489-490): the key loaded by lane `r` (slot `i + r`,
where `i` is the window base) is bit-compared against `empty_key_sentinel`. -/
def View.laneEmpty [DecidableEq K] (v : View K V) (i r : Nat) : Bool :=
  bitwise_compare (v.slotAt (i + r)).key v.empty_key_sentinel

/-- Lane `r`'s match test in the cooperative `find` and `contains`
(source lines 390, 494): `not slot_is_empty and key_equal(existing_key, k)`. -/
def View.laneMatches [DecidableEq K] (v : View K V) (keq : K → K → Bool)
    (k : K) (i r : Nat) : Bool :=
  !(v.laneEmpty i r) && keq (v.slotAt (i + r)).key k

/-- Group-cooperative `device_view::find` (source lines 374-406): a group of
`w` lanes examines the window of `w` slots starting at `i`; the lowest-rank
lane of the `exists` ballot provides the returned slot; an `empty` ballot
with no match returns `end()`; otherwise the group moves to the next window. -/
def View.cgFindLoop [DecidableEq K] (v : View K V) (w : Nat)
    (keq : K → K → Bool) (k : K) (i : Nat) : Nat → Option (Option Nat)
  | 0 => none
  | fuel + 1 =>
    match firstLane (fun r => v.laneMatches keq k i r) w with
    | some r => some (some (i + r))
    | none =>
      if (firstLane (fun r => v.laneEmpty i r) w).isSome then some none
      else v.cgFindLoop w keq k (next_slot_cg v.capacity w i) fuel

/-- Group-cooperative `device_view::contains` (source lines 479-503). -/
def View.cgContainsLoop [DecidableEq K] (v : View K V) (w : Nat)
    (keq : K → K → Bool) (k : K) (i : Nat) : Nat → Option Bool
  | 0 => none
  | fuel + 1 =>
    if (firstLane (fun r => v.laneMatches keq k i r) w).isSome then some true
    else if (firstLane (fun r => v.laneEmpty i r) w).isSome then some false
    else v.cgContainsLoop w keq k (next_slot_cg v.capacity w i) fuel

/-- Lane `r`'s emptiness test in the cooperative `find_all` (source line 597):
unlike `find` and `contains`, the slot key is compared against the sentinel
with the key type's own equality `existing_key == get_empty_key_sentinel()`
(`natEq` models that `operator==`), not with `detail::bitwise_compare`. -/
def View.laneEmptyNat (v : View K V) (natEq : K → K → Bool) (i r : Nat) : Bool :=
  natEq (v.slotAt (i + r)).key v.empty_key_sentinel

/-- Lane `r`'s match test in the cooperative `find_all` (source line 601),
guarded by the `operator==`-based emptiness test of line 597. -/
def View.laneMatchesNat (v : View K V) (natEq keq : K → K → Bool)
    (k : K) (i r : Nat) : Bool :=
  !(v.laneEmptyNat natEq i r) && keq (v.slotAt (i + r)).key k

/-- Group-cooperative `device_view::find_all` (source lines 585-617): same
window protocol as the cooperative `find`, but the emptiness test uses the
key type's `operator==` (`natEq`) instead of `detail::bitwise_compare`.
Result: `some (some j)` = cursor on the first match at slot `j`,
`some none` = cursor at `end()`. -/
def View.cgFindAllLoop [DecidableEq K] (v : View K V) (w : Nat)
    (natEq keq : K → K → Bool) (k : K) (i : Nat) : Nat → Option (Option Nat)
  | 0 => none
  | fuel + 1 =>
    match firstLane (fun r => v.laneMatchesNat natEq keq k i r) w with
    | some r => some (some (i + r))
    | none =>
      if (firstLane (fun r => v.laneEmptyNat natEq i r) w).isSome then some none
      else v.cgFindAllLoop w natEq keq k (next_slot_cg v.capacity w i) fuel

/-- Group-cooperative `device_view::find_all` from the initial window of `k`. -/
def View.cgFindAll [DecidableEq K] (v : View K V) (w : Nat) (hash : K → Nat)
    (natEq keq : K → K → Bool) (k : K) (fuel : Nat) : Option (Option Nat) :=
  v.cgFindAllLoop w natEq keq k (initial_slot_cg v.capacity w (hash k)) fuel

/-- Modelled from the spec: advancing the enumeration cursor (the
`fancy_iterator` increment lives in `static_multimap.cuh`, not under `src/`).
Advancing resumes probing from the slot after the current match `i` and scans
forward, skipping non-matching non-empty slots, until another match
(`some (some j)`) or an empty slot (`some none`, the cursor equals `end()`);
this scan is exactly the single-worker find loop started at `next_slot i`. -/
def View.cursorNext [DecidableEq K] (v : View K V) (keq : K → K → Bool)
    (k : K) (i : Nat) (fuel : Nat) : Option (Option Nat) :=
  v.findLoop keq k (next_slot v.capacity i) fuel

/-- The counting loop of `device_view::count` (source lines 514-520 and
547-556): starting from the cursor returned by `find_all`, increment the
cursor until it equals `end()`, incrementing the count each time.
`innerFuel` bounds each cursor advance, the last argument the number of
iterations of the `while` loop. -/
def View.countLoop [DecidableEq K] (v : View K V) (keq : K → K → Bool)
    (k : K) (innerFuel : Nat) : Option (Option Nat) → Nat → Option Nat
  | none, _ => none
  | some none, _ => some 0
  | some (some _), 0 => none
  | some (some i), fuel + 1 =>
    (v.countLoop keq k innerFuel (v.cursorNext keq k i innerFuel) fuel).map
      (· + 1)

/-- The sequence of matches produced by iterating a cursor until `end()`:
the same iteration as `View.countLoop`, but recording the visited slots
instead of counting them. -/
def View.matchListLoop [DecidableEq K] (v : View K V) (keq : K → K → Bool)
    (k : K) (innerFuel : Nat) : Option (Option Nat) → Nat → Option (List Nat)
  | none, _ => none
  | some none, _ => some []
  | some (some _), 0 => none
  | some (some i), fuel + 1 =>
    (v.matchListLoop keq k innerFuel (v.cursorNext keq k i innerFuel) fuel).map
      (i :: ·)

/-- Group-cooperative `device_view::count` (source lines 547-557):
`find_all` then enumeration + counting. -/
def View.cgCount [DecidableEq K] (v : View K V) (w : Nat) (hash : K → Nat)
    (natEq keq : K → K → Bool) (k : K) (innerFuel fuel : Nat) : Option Nat :=
  v.countLoop keq k innerFuel (v.cgFindAll w hash natEq keq k innerFuel) fuel

/-- The sequence of matches the cursor returned by the group-cooperative
`find_all` produces when iterated until `end()`. -/
def View.cgFindAllList [DecidableEq K] (v : View K V) (w : Nat) (hash : K → Nat)
    (natEq keq : K → K → Bool) (k : K) (innerFuel fuel : Nat) : Option (List Nat) :=
  v.matchListLoop keq k innerFuel (v.cgFindAll w hash natEq keq k innerFuel) fuel

/-- Modelled from the spec: the single-worker flavour of `find_all`
(supplied by `static_multimap.cuh`, not under `src/`): the returned cursor
starts at the first matching slot of the probe sequence, i.e. at the result
of the single-worker find. -/
def View.findAllScalar [DecidableEq K] (v : View K V) (hash : K → Nat)
    (keq : K → K → Bool) (k : K) (fuel : Nat) : Option (Option Nat) :=
  v.find hash keq k fuel

/-- Single-worker `device_view::count` (source lines 511-521):
`find_all` then enumeration + counting. -/
def View.countScalar [DecidableEq K] (v : View K V) (hash : K → Nat)
    (keq : K → K → Bool) (k : K) (innerFuel fuel : Nat) : Option Nat :=
  v.countLoop keq k innerFuel (v.findAllScalar hash keq k innerFuel) fuel

/-- The sequence of matches the cursor returned by the single-worker
`find_all` produces when iterated until `end()`. -/
def View.findAllScalarList [DecidableEq K] (v : View K V) (hash : K → Nat)
    (keq : K → K → Bool) (k : K) (innerFuel fuel : Nat) : Option (List Nat) :=
  v.matchListLoop keq k innerFuel (v.findAllScalar hash keq k innerFuel) fuel

/-- The value-CAS retry loop of the insert (source lines 226-231, 287-292)
as executed sequentially: the loop re-issues
`compare_exchange_strong(expected = empty_value_sentinel, v)` against a value
word `w` that no other step of the execution changes, so it terminates
(with the CAS writing the new value) exactly when `w` is the value sentinel. -/
def valueRetryStatic [DecidableEq V] (esv w : V) : Nat → Option Unit
  | 0 => none
  | fuel + 1 => if w = esv then some () else valueRetryStatic esv w fuel

/-- Single-worker `device_mutable_view::insert` (source lines 208-241) in the
sequential (one worker at a time) semantics, net effect per probed slot:
a key CAS succeeds exactly when the key word equals `empty_key_sentinel`;
on key-CAS success the value converges through `valueRetryStatic` and the
pair is committed; on key-CAS failure the value CAS, when it spuriously
succeeded (value word was the sentinel), is immediately rolled back by the
store of line 234, so the table is unchanged and the worker advances to
`next_slot`.  `keq` mirrors the (unused) `KeyEqual key_equal` parameter. -/
def View.insertLoop [DecidableEq K] [DecidableEq V] (v : View K V)
    (keq : K → K → Bool) (k : K) (vl : V) (i : Nat) : Nat → Option (View K V)
  | 0 => none
  | fuel + 1 =>
    let s := v.slotAt i
    if s.key = v.empty_key_sentinel then
      match valueRetryStatic v.empty_value_sentinel s.value (fuel + 1) with
      | some _ => some (v.setSlot i ⟨k, vl⟩)
      | none => none
    else
      v.insertLoop keq k vl (next_slot v.capacity i) fuel

/-- The emptiness test of the group-cooperative insert on the slot at probe
position `j` (source lines 266-269): the slot's KEY field is bit-compared
against `get_empty_value_sentinel()`, the VALUE sentinel.  The source
expression `bitwise_compare(arr[0].first, this->get_empty_value_sentinel())`
only compiles when the key and value types are comparable, so this embedding
of the cooperative insert uses one type `T` for both. -/
def View.cgInsertEmptyTest {T : Type} [DecidableEq T] (v : View T T)
    (j : Nat) : Bool :=
  bitwise_compare (v.slotAt j).key v.empty_value_sentinel

/-- The elected lane's body of the group-cooperative insert (source lines
275-299), sequential net effect at slot `loc`: key CAS from
`empty_key_sentinel`; on success the value converges and the status is
`SUCCESS`; on key-CAS failure a spuriously successful value CAS is rolled
back (line 295), the table is unchanged, and the status stays `CONTINUE`. -/
def View.cgWindowAttempt {T : Type} [DecidableEq T] (v : View T T)
    (k vl : T) (loc : Nat) (fuel : Nat) : Option (insert_result × View T T) :=
  let s := v.slotAt loc
  if s.key = v.empty_key_sentinel then
    match valueRetryStatic v.empty_value_sentinel s.value fuel with
    | some _ => some (insert_result.SUCCESS, v.setSlot loc ⟨k, vl⟩)
    | none => none
  else some (insert_result.CONTINUE, v)

/-- Group-cooperative `device_mutable_view::insert` (source lines 249-313) in
the sequential semantics.  Each of the `w` lanes bulk-loads two slots
(`arr[2]`, the window covers `2*w` slots starting at `i`); lane `r` tests the
keys of slots `i+2r` and `i+2r+1` for emptiness with `cgInsertEmptyTest`
(the key field against the VALUE sentinel, as in the source); if no lane sees
an empty slot the group advances one window, else the lowest-rank such lane
(`__ffs(window_contains_empty) - 1`) runs the two-CAS protocol on its first
empty slot (`current_slot + !(first_slot_is_empty)`, line 279); on `SUCCESS`
the group returns, on `CONTINUE` it retries the same window. -/
def View.cgInsertLoop {T : Type} [DecidableEq T] (v : View T T) (w : Nat)
    (keq : T → T → Bool) (k vl : T) (i : Nat) : Nat → Option (View T T)
  | 0 => none
  | fuel + 1 =>
    match firstLane
        (fun r => v.cgInsertEmptyTest (i + 2 * r)
          || v.cgInsertEmptyTest (i + 2 * r + 1)) w with
    | none => v.cgInsertLoop w keq k vl (next_slot_cg v.capacity (2 * w) i) fuel
    | some src =>
      let loc := i + 2 * src + (if v.cgInsertEmptyTest (i + 2 * src) then 0 else 1)
      match v.cgWindowAttempt k vl loc (fuel + 1) with
      | none => none
      | some (insert_result.SUCCESS, t) => some t
      | some (_, t) => t.cgInsertLoop w keq k vl i fuel

/-- The possible per-slot outcomes of the single-worker insert protocol:
either the pair was committed and the worker returns, or the worker advances
to `next_slot(current_slot)` (source lines 232 and 239). -/
inductive SlotOutcome where
  | success
  | advance
deriving DecidableEq, Repr

/-- The value-CAS retry loop (source lines 226-231) against an interfering
value word: `trace` lists the successive contents of the slot's value word
observed by each retry; the CAS (expected `empty_value_sentinel`) succeeds at
the first observation equal to the sentinel. -/
def valueRetry (esv : Int) : List Int → Bool
  | [] => false
  | w :: ws => if w = esv then true else valueRetry esv ws

/-- One probed slot of the single-worker `device_mutable_view::insert`
(source lines 213-239), with interference on the value word made explicit:
`skey` is the content of the slot's key word when the key CAS of line 220
executes, `v0` the content of the value word when the value CAS of line 222
executes, and `vtrace` the contents observed by the successive retries of
lines 226-231.  Result: `some (outcome, key word, value word)` gives the
final state of the slot's two words as left by this worker; `none` means the
retry loop has not yet terminated within the given trace. -/
def slotAttempt (esk esv k vl : Int) (skey v0 : Int) (vtrace : List Int) :
    Option (SlotOutcome × Int × Int) :=
  if skey = esk then
    if v0 = esv then some (SlotOutcome.success, k, vl)
    else if valueRetry esv vtrace then some (SlotOutcome.success, k, vl)
    else none
  else
    if v0 = esv then some (SlotOutcome.advance, skey, esv)
    else some (SlotOutcome.advance, skey, v0)

/-- A minimal model of an IEEE-754-style floating-point key type: a sign bit
and a magnitude.  Distinct Lean values have distinct bit patterns. -/
structure FloatKey where
  sign : Bool
  mag : Nat
deriving DecidableEq, Repr

/-- The key type's own `operator==` for `FloatKey`: positive and negative
zero compare equal although their bit patterns differ. -/
def floatEq (a b : FloatKey) : Bool :=
  (decide (a.mag = 0) && decide (b.mag = 0)) || decide (a = b)

/-- The group ballot is zero exactly when no lane satisfies the predicate. -/
theorem firstLane_eq_none_iff (p : Nat → Bool) (w : Nat) :
    firstLane p w = none ↔ ∀ r, r < w → p r = false := by
  induction w with
  | zero => simp [firstLane]
  | succ n ih =>
    constructor
    · intro hc r hr
      unfold firstLane at hc
      cases h : firstLane p n with
      | some q => simp [h] at hc
      | none =>
        simp [h] at hc
        rcases Nat.lt_succ_iff_lt_or_eq.mp hr with h1 | h1
        · exact (ih.mp h) r h1
        · subst h1
          by_contra hb
          rw [Bool.not_eq_false] at hb
          simp [hb] at hc
    · intro hall
      unfold firstLane
      have h : firstLane p n = none :=
        ih.mpr (fun r hr => hall r (Nat.lt_succ_of_lt hr))
      simp [h, hall n (Nat.lt_succ_self n)]

/-- The lane elected by `__ffs(ballot(p)) - 1` satisfies `p` and is the
lowest-rank lane doing so. -/
theorem firstLane_eq_some (p : Nat → Bool) (w r : Nat)
    (h : firstLane p w = some r) :
    r < w ∧ p r = true ∧ ∀ q, q < r → p q = false := by
  induction w with
  | zero => simp [firstLane] at h
  | succ n ih =>
    unfold firstLane at h
    cases h0 : firstLane p n with
    | some q =>
      simp [h0] at h
      subst h
      obtain ⟨h1, h2, h3⟩ := ih h0
      exact ⟨Nat.lt_succ_of_lt h1, h2, h3⟩
    | none =>
      simp [h0] at h
      by_cases hp : p n = true
      · simp [hp] at h
        subst h
        exact ⟨Nat.lt_succ_self n, hp,
          fun q hq => (firstLane_eq_none_iff p n).mp h0 q hq⟩
      · simp [hp] at h

/-- Converse: the lowest-rank lane satisfying `p` is the one elected. -/
theorem firstLane_eq_some_of (p : Nat → Bool) (w r : Nat) (h1 : r < w)
    (h2 : p r = true) (h3 : ∀ q, q < r → p q = false) :
    firstLane p w = some r := by
  induction w with
  | zero => exact absurd h1 (Nat.not_lt_zero r)
  | succ n ih =>
    unfold firstLane
    rcases Nat.lt_succ_iff_lt_or_eq.mp h1 with hr | hr
    · rw [ih hr]
    · subst hr
      have h0 : firstLane p r = none := (firstLane_eq_none_iff p r).mpr h3
      simp [h0, h2]

theorem View.capacity_setSlot (v : View K V) (i : Nat) (s : Slot K V) :
    (v.setSlot i s).capacity = v.capacity := by
  simp [View.setSlot, View.capacity]

/-- Writing a slot and reading it back yields the written pair. -/
theorem View.slotAt_setSlot_self (v : View K V) (i : Nat) (s : Slot K V)
    (h : 0 < v.capacity) : (v.setSlot i s).slotAt i = s := by
  unfold View.slotAt
  rw [View.capacity_setSlot]
  show (v.slots.set (i % v.capacity) s).getD (i % v.capacity) _ = s
  have hlen : i % v.capacity < v.slots.length := Nat.mod_lt i h
  rw [List.getD_eq_getElem?_getD, List.getElem?_set_eq_of_lt s hlen]
  rfl

/-- Writing a slot leaves every other slot unchanged. -/
theorem View.slotAt_setSlot_ne (v : View K V) (i j : Nat) (s : Slot K V)
    (h : i % v.capacity ≠ j % v.capacity) :
    (v.setSlot i s).slotAt j = v.slotAt j := by
  unfold View.slotAt
  rw [View.capacity_setSlot]
  show (v.slots.set (i % v.capacity) s).getD (j % v.capacity) _ =
    v.slots.getD (j % v.capacity) _
  rw [List.getD_eq_getElem?_getD, List.getElem?_set_ne h,
    ← List.getD_eq_getElem?_getD]
  rfl

/-- Slot addresses wrap: reducing the base modulo the capacity reads the same
slot. -/
theorem View.slotAt_mod_add (v : View K V) (a b : Nat) :
    v.slotAt (a % v.capacity + b) = v.slotAt (a + b) := by
  unfold View.slotAt
  rw [Nat.mod_add_mod]

/-- Updating at a probe position or at its reduced index is the same update. -/
theorem View.setSlot_mod (v : View K V) (i : Nat) (s : Slot K V) :
    v.setSlot (i % v.capacity) s = v.setSlot i s := by
  unfold View.setSlot
  rw [Nat.mod_mod_of_dvd _ (dvd_refl _)]

/-- A static value word that is not the sentinel makes the value-CAS retry
loop spin forever. -/
theorem valueRetryStatic_eq_none [DecidableEq V] (esv w : V) (h : w ≠ esv) :
    ∀ fuel, valueRetryStatic esv w fuel = none := by
  intro fuel
  induction fuel with
  | zero => rfl
  | succ n ih => simp [valueRetryStatic, h, ih]

/-- The value-CAS retry loop terminates with fuel left exactly when the
static value word is the sentinel. -/
theorem valueRetryStatic_eq_some [DecidableEq V] (esv w : V) (fuel : Nat)
    (h : valueRetryStatic esv w (fuel + 1) = some ()) : w = esv := by
  by_contra hb
  rw [valueRetryStatic_eq_none esv w hb] at h
  exact Option.noConfusion h

/-! Concrete tables used to instantiate the theorems below. -/

/-- Equality of integer keys (a caller-supplied `key_equal`). -/
def keqInt : Int → Int → Bool := fun a b => decide (a = b)

/-- An all-empty capacity-4 table whose key and value sentinels differ. -/
def tableEmptyDistinct : View Int Int :=
  ⟨[⟨-1, -2⟩, ⟨-1, -2⟩, ⟨-1, -2⟩, ⟨-1, -2⟩], -1, -2⟩

/-- An all-empty capacity-4 table whose key and value sentinels coincide. -/
def tableEmptySame : View Int Int :=
  ⟨[⟨-1, -1⟩, ⟨-1, -1⟩, ⟨-1, -1⟩, ⟨-1, -1⟩], -1, -1⟩

/-- A capacity-4 table with every slot occupied (the four inserts of the
spec scenario `(1,a),(2,b),(3,c),(4,d)` done). -/
def tableFull : View Int Int := ⟨[⟨1, 10⟩, ⟨2, 11⟩, ⟨3, 12⟩, ⟨4, 13⟩], -1, -1⟩

/-- A capacity-6 table holding key 1 three times and key 2 once. -/
def tableDup : View Int Int :=
  ⟨[⟨1, 10⟩, ⟨1, 11⟩, ⟨2, 20⟩, ⟨1, 12⟩, ⟨-1, -1⟩, ⟨-1, -1⟩], -1, -1⟩

/-- A capacity-2 table whose single window holds an empty slot (lane 0) and
an occupied slot (lane 1). -/
def tableMix : View Int Int := ⟨[⟨-1, -1⟩, ⟨5, 50⟩], -1, -1⟩

/-- A float-keyed table: the key sentinel is positive zero, slot 0 holds
negative zero (equal under the key type's `operator==`, bitwise distinct),
slot 2 holds the probed key `kFloat`. -/
def tableFloat : View FloatKey Int :=
  ⟨[⟨⟨true, 0⟩, 100⟩, ⟨⟨false, 5⟩, 1⟩, ⟨⟨false, 7⟩, 2⟩, ⟨⟨false, 5⟩, 3⟩],
    ⟨false, 0⟩, 0⟩

/-- The key probed in `tableFloat`. -/
def kFloat : FloatKey := ⟨false, 7⟩

/-- Claim C1 (code bug): in the group-cooperative insert each lane is meant
to test its slot key against `empty_key_sentinel`, but source lines 266-269
bit-compare the key field against `get_empty_value_sentinel()`.  With
distinct sentinels a genuinely empty slot (key = key sentinel) is classified
non-empty, no window ever appears to contain an empty slot, and the
cooperative insert into a completely empty table never commits; with
coinciding sentinels (hiding the bug) the same insert succeeds at once. -/
theorem cgInsert_empty_test_uses_value_sentinel :
    (tableEmptyDistinct.slotAt 0).key = tableEmptyDistinct.empty_key_sentinel
    ∧ tableEmptyDistinct.cgInsertEmptyTest 0 = false
    ∧ tableEmptyDistinct.cgInsertLoop 1 keqInt 7 8 0 50 = none
    ∧ tableEmptySame.cgInsertLoop 1 keqInt 7 8 0 50 =
        some (tableEmptySame.setSlot 0 ⟨7, 8⟩) := by
  decide

/-- Claim C2 (counterexample): a fifth insert `(5, 14)` into the full
capacity-4 table does not fail with any `CapacityExceeded` outcome once the
probe step count reaches `capacity/step = 4`: after 4 probe steps — and
after 100, far beyond — both the single-worker and the group-cooperative
insert have produced no outcome at all; no error result exists in the code
(the insert loop is `while (true)` with no step counter, lines 213 and 253). -/
theorem insert_full_table_no_capacity_error :
    tableFull.insertLoop keqInt 5 14 0 4 = none
    ∧ tableFull.insertLoop keqInt 5 14 0 100 = none
    ∧ tableFull.cgInsertLoop 2 keqInt 5 14 0 100 = none := by
  decide

/-- Claim C2 (amended): an insert whose probe path contains no empty slot
never terminates: for every amount of fuel the single-worker insert loop
(given a table whose every slot key differs from the key sentinel) and the
group-cooperative insert loop (given a table on which the code's emptiness
test holds nowhere) return no result — there is no `CapacityExceeded`, the
loop simply runs forever. -/
theorem insert_full_table_never_returns (v : View Int Int)
    (keq : Int → Int → Bool) (k vl : Int)
    (hcap : 0 < v.capacity)
    (hk : ∀ j, j < v.capacity → (v.slotAt j).key ≠ v.empty_key_sentinel)
    (vt : View Int Int) (w : Nat) (hcapt : 0 < vt.capacity)
    (ht : ∀ j, j < vt.capacity → vt.cgInsertEmptyTest j = false) :
    (∀ i fuel, v.insertLoop keq k vl i fuel = none)
    ∧ (∀ i fuel, vt.cgInsertLoop w keq k vl i fuel = none) := by
  have hk2 : ∀ j, (v.slotAt j).key ≠ v.empty_key_sentinel := by
    intro j
    have h0 : v.slotAt j = v.slotAt (j % v.capacity) := by
      have := v.slotAt_mod_add j 0
      simpa using this.symm
    rw [h0]
    exact hk (j % v.capacity) (Nat.mod_lt j hcap)
  have ht2 : ∀ j, vt.cgInsertEmptyTest j = false := by
    intro j
    have hsl : vt.slotAt j = vt.slotAt (j % vt.capacity) := by
      have := vt.slotAt_mod_add j 0
      simpa using this.symm
    have h0 : vt.cgInsertEmptyTest j = vt.cgInsertEmptyTest (j % vt.capacity) := by
      unfold View.cgInsertEmptyTest
      rw [hsl]
    rw [h0]
    exact ht (j % vt.capacity) (Nat.mod_lt j hcapt)
  constructor
  · intro i fuel
    induction fuel generalizing i with
    | zero => rfl
    | succ n ih =>
      unfold View.insertLoop
      simp only [hk2 i, if_false]
      exact ih (next_slot v.capacity i)
  · intro i fuel
    induction fuel generalizing i with
    | zero => rfl
    | succ n ih =>
      unfold View.cgInsertLoop
      have hnone : firstLane
          (fun r => vt.cgInsertEmptyTest (i + 2 * r)
            || vt.cgInsertEmptyTest (i + 2 * r + 1)) w = none := by
        rw [firstLane_eq_none_iff]
        intro r _
        simp [ht2]
      rw [hnone]
      exact ih (next_slot_cg vt.capacity (2 * w) i)

/-- Claim C2 (witness for the amended theorem): the full capacity-4 table
satisfies the hypotheses, and a fifth insert never returns. -/
theorem insert_full_table_never_returns_witness :
    tableFull.insertLoop keqInt 5 14 0 250 = none
    ∧ tableFull.cgInsertLoop 2 keqInt 5 14 3 250 = none := by
  have h := insert_full_table_never_returns tableFull keqInt 5 14
    (by decide) (by decide) tableFull 2 (by decide) (by decide)
  exact ⟨h.1 0 250, h.2 3 250⟩

/-- Claim C3: the single-worker insert follows the two-word commit protocol
at each probed slot.  When the key CAS succeeds (the key word held the key
sentinel) the worker retries the value CAS with expected
`empty_value_sentinel` until an observation of the value word equals the
sentinel, then returns with the pair committed; when the key CAS fails but
the value CAS succeeded, the value word is rolled back to
`empty_value_sentinel` and the worker advances to the next slot; when both
CAS fail the worker advances with the slot unchanged. -/
theorem scalar_insert_two_word_protocol (esk esv k vl skey v0 : Int)
    (vtrace : List Int) :
    (skey = esk → (v0 = esv ∨ valueRetry esv vtrace = true) →
      slotAttempt esk esv k vl skey v0 vtrace =
        some (SlotOutcome.success, k, vl))
    ∧ (skey ≠ esk → v0 = esv →
      slotAttempt esk esv k vl skey v0 vtrace =
        some (SlotOutcome.advance, skey, esv))
    ∧ (skey ≠ esk → v0 ≠ esv →
      slotAttempt esk esv k vl skey v0 vtrace =
        some (SlotOutcome.advance, skey, v0)) := by
  refine ⟨?_, ?_, ?_⟩
  · rintro h1 (h2 | h2) <;> simp [slotAttempt, h1, h2]
  · intro h1 h2
    simp [slotAttempt, h1, h2]
  · intro h1 h2
    simp [slotAttempt, h1, h2]

/-- Claim C3 (witness): the three protocol branches at concrete inputs,
including a value CAS that first observes an interfering value `3` and
succeeds only on the second retry. -/
theorem scalar_insert_two_word_protocol_witness :
    slotAttempt (-1) (-2) 5 50 (-1) 99 [3, -2] =
      some (SlotOutcome.success, 5, 50)
    ∧ slotAttempt (-1) (-2) 5 50 7 (-2) [] =
      some (SlotOutcome.advance, 7, -2)
    ∧ slotAttempt (-1) (-2) 5 50 7 9 [] =
      some (SlotOutcome.advance, 7, 9) :=
  ⟨(scalar_insert_two_word_protocol (-1) (-2) 5 50 (-1) 99 [3, -2]).1
      (by decide) (Or.inr (by decide)),
   (scalar_insert_two_word_protocol (-1) (-2) 5 50 7 (-2) []).2.1
      (by decide) (by decide),
   (scalar_insert_two_word_protocol (-1) (-2) 5 50 7 9 []).2.2
      (by decide) (by decide)⟩

/-- Unfolding equation of the single-worker find loop at positive fuel. -/
theorem View.findLoop_succ [DecidableEq K] (v : View K V)
    (keq : K → K → Bool) (k : K) (i f : Nat) :
    v.findLoop keq k i (f + 1) =
      if bitwise_compare (v.slotAt i).key v.empty_key_sentinel then some none
      else if keq (v.slotAt i).key k then some (some i)
      else v.findLoop keq k (next_slot v.capacity i) f := rfl

/-- Unfolding equation of the single-worker contains loop at positive fuel. -/
theorem View.containsLoop_succ [DecidableEq K] (v : View K V)
    (keq : K → K → Bool) (k : K) (i f : Nat) :
    v.containsLoop keq k i (f + 1) =
      if bitwise_compare (v.slotAt i).key v.empty_key_sentinel then some false
      else if keq (v.slotAt i).key k then some true
      else v.containsLoop keq k (next_slot v.capacity i) f := rfl

/-- Advancing the probe base by `next_slot` shifts the offset by one. -/
theorem View.slotAt_shift (v : View K V) (i m : Nat) :
    v.slotAt ((i + 1) % v.capacity + m) = v.slotAt (i + (m + 1)) := by
  rw [View.slotAt_mod_add]
  congr 1
  omega

/-- Lane emptiness commutes with advancing the probe base by one slot. -/
theorem View.laneEmpty_shift [DecidableEq K] (v : View K V) (i m : Nat) :
    v.laneEmpty ((i + 1) % v.capacity) m = v.laneEmpty i (m + 1) := by
  unfold View.laneEmpty
  rw [View.slotAt_shift]

/-- Claim C4: starting at probe position `i` (the initial slot of the key),
the single-worker find and contains behave identically along the probe path:
as long as every earlier probed slot is non-empty and fails `key_equal`, the
first probed slot whose key bit-equals `empty_key_sentinel` makes find return
`end()` and contains return false, and the first probed slot that is
non-empty and satisfies `key_equal` is returned by find (contains returns
true). -/
theorem scalar_find_contains_probe_path [DecidableEq K] (v : View K V)
    (keq : K → K → Bool) (k : K) :
    ∀ n i fuel : Nat, i < v.capacity → n < fuel →
    (∀ m, m < n →
      v.laneEmpty i m = false ∧ keq (v.slotAt (i + m)).key k = false) →
    ((v.laneEmpty i n = true →
        v.findLoop keq k i fuel = some none
          ∧ v.containsLoop keq k i fuel = some false)
     ∧ (v.laneEmpty i n = false → keq (v.slotAt (i + n)).key k = true →
        v.findLoop keq k i fuel = some (some ((i + n) % v.capacity))
          ∧ v.containsLoop keq k i fuel = some true)) := by
  intro n
  induction n with
  | zero =>
    intro i fuel hcap hfuel _
    cases fuel with
    | zero => omega
    | succ f =>
      constructor
      · intro he
        have he' : bitwise_compare (v.slotAt i).key v.empty_key_sentinel = true := by
          simpa [View.laneEmpty] using he
        constructor
        · unfold View.findLoop
          simp [he']
        · unfold View.containsLoop
          simp [he']
      · intro he hm
        have he' : bitwise_compare (v.slotAt i).key v.empty_key_sentinel = false := by
          simpa [View.laneEmpty] using he
        have hm' : keq (v.slotAt i).key k = true := by simpa using hm
        have hmod : i % v.capacity = i := Nat.mod_eq_of_lt hcap
        constructor
        · rw [View.findLoop_succ]
          simp [he', hm', hmod]
        · rw [View.containsLoop_succ]
          simp [he', hm']
  | succ n ih =>
    intro i fuel hcap hfuel hskip
    cases fuel with
    | zero => omega
    | succ f =>
      have h0 := hskip 0 (Nat.succ_pos n)
      have he0 : bitwise_compare (v.slotAt i).key v.empty_key_sentinel = false := by
        simpa [View.laneEmpty] using h0.1
      have hm0 : keq (v.slotAt i).key k = false := by simpa using h0.2
      have hstepf : v.findLoop keq k i (f + 1) =
          v.findLoop keq k (next_slot v.capacity i) f := by
        rw [View.findLoop_succ]
        simp [he0, hm0]
      have hstepc : v.containsLoop keq k i (f + 1) =
          v.containsLoop keq k (next_slot v.capacity i) f := by
        rw [View.containsLoop_succ]
        simp [he0, hm0]
      have hcap0 : 0 < v.capacity := Nat.lt_of_le_of_lt (Nat.zero_le i) hcap
      have heq : next_slot v.capacity i = (i + 1) % v.capacity := rfl
      have hcap' : next_slot v.capacity i < v.capacity := by
        rw [heq]
        exact Nat.mod_lt _ hcap0
      have hfu' : n < f := by omega
      have hskip' : ∀ m, m < n →
          v.laneEmpty (next_slot v.capacity i) m = false ∧
            keq (v.slotAt (next_slot v.capacity i + m)).key k = false := by
        intro m hm
        have hsm := hskip (m + 1) (by omega)
        constructor
        · rw [heq, v.laneEmpty_shift]
          exact hsm.1
        · rw [heq, v.slotAt_shift]
          exact hsm.2
      have hmain := ih (next_slot v.capacity i) f hcap' hfu' hskip'
      constructor
      · intro he
        have he' : v.laneEmpty (next_slot v.capacity i) n = true := by
          rw [heq, v.laneEmpty_shift]
          exact he
        rw [hstepf, hstepc]
        exact hmain.1 he'
      · intro he hm
        have he' : v.laneEmpty (next_slot v.capacity i) n = false := by
          rw [heq, v.laneEmpty_shift]
          exact he
        have hm' : keq (v.slotAt (next_slot v.capacity i + n)).key k = true := by
          rw [heq, v.slotAt_shift]
          exact hm
        have hres := hmain.2 he' hm'
        have hidx : (next_slot v.capacity i + n) % v.capacity =
            (i + (n + 1)) % v.capacity := by
          rw [heq, Nat.mod_add_mod]
          congr 1
          omega
        rw [hstepf, hstepc]
        rw [hidx] at hres
        exact hres

/-- Claim C4 (witness): probing `tableDup` for the absent key 3 passes the
four occupied slots and stops not-found at the empty slot 4. -/
theorem scalar_find_contains_probe_path_witness :
    tableDup.findLoop keqInt 3 0 20 = some none
    ∧ tableDup.containsLoop keqInt 3 0 20 = some false :=
  (scalar_find_contains_probe_path tableDup keqInt 3 4 0 20 (by decide)
    (by decide) (by decide)).1 (by decide)

/-- Unfolding equation of the cooperative find loop at positive fuel. -/
theorem View.cgFindLoop_succ [DecidableEq K] (v : View K V) (w : Nat)
    (keq : K → K → Bool) (k : K) (i f : Nat) :
    v.cgFindLoop w keq k i (f + 1) =
      match firstLane (fun r => v.laneMatches keq k i r) w with
      | some r => some (some (i + r))
      | none =>
        if (firstLane (fun r => v.laneEmpty i r) w).isSome then some none
        else v.cgFindLoop w keq k (next_slot_cg v.capacity w i) f := rfl

/-- Unfolding equation of the cooperative contains loop at positive fuel. -/
theorem View.cgContainsLoop_succ [DecidableEq K] (v : View K V) (w : Nat)
    (keq : K → K → Bool) (k : K) (i f : Nat) :
    v.cgContainsLoop w keq k i (f + 1) =
      if (firstLane (fun r => v.laneMatches keq k i r) w).isSome then some true
      else if (firstLane (fun r => v.laneEmpty i r) w).isSome then some false
      else v.cgContainsLoop w keq k (next_slot_cg v.capacity w i) f := rfl

/-- Claim C5: one window of the group-cooperative find and contains.  When
some lane of the window holds a non-empty slot satisfying `key_equal`, the
lowest-rank such lane's slot is returned (and contains returns true) — a
match takes precedence over any empty slot in the same window; when no lane
matches but some lane holds an empty slot, find returns `end()` and contains
false; when no lane matches and no lane is empty the group advances to the
next window. -/
theorem cg_find_contains_window_policy [DecidableEq K] (v : View K V)
    (w : Nat) (keq : K → K → Bool) (k : K) (i fuel : Nat) :
    ((∃ r, r < w ∧ v.laneMatches keq k i r = true) →
      ∃ r, r < w ∧ v.laneMatches keq k i r = true
        ∧ (∀ q, q < r → v.laneMatches keq k i q = false)
        ∧ v.cgFindLoop w keq k i (fuel + 1) = some (some (i + r))
        ∧ v.cgContainsLoop w keq k i (fuel + 1) = some true)
    ∧ ((∀ r, r < w → v.laneMatches keq k i r = false) →
       (∃ r, r < w ∧ v.laneEmpty i r = true) →
        v.cgFindLoop w keq k i (fuel + 1) = some none
        ∧ v.cgContainsLoop w keq k i (fuel + 1) = some false)
    ∧ ((∀ r, r < w → v.laneMatches keq k i r = false) →
       (∀ r, r < w → v.laneEmpty i r = false) →
        v.cgFindLoop w keq k i (fuel + 1) =
            v.cgFindLoop w keq k (next_slot_cg v.capacity w i) fuel
        ∧ v.cgContainsLoop w keq k i (fuel + 1) =
            v.cgContainsLoop w keq k (next_slot_cg v.capacity w i) fuel) := by
  refine ⟨?_, ?_, ?_⟩
  · rintro ⟨r0, hr0, hp0⟩
    cases h : firstLane (fun r => v.laneMatches keq k i r) w with
    | none =>
      have := (firstLane_eq_none_iff _ w).mp h r0 hr0
      rw [hp0] at this
      exact absurd this (by decide)
    | some r =>
      obtain ⟨h1, h2, h3⟩ := firstLane_eq_some _ w r h
      refine ⟨r, h1, h2, h3, ?_, ?_⟩
      · rw [View.cgFindLoop_succ, h]
      · rw [View.cgContainsLoop_succ, h]
        rfl
  · intro hnm ⟨r0, hr0, he0⟩
    have hm : firstLane (fun r => v.laneMatches keq k i r) w = none :=
      (firstLane_eq_none_iff _ w).mpr hnm
    have hes : (firstLane (fun r => v.laneEmpty i r) w).isSome = true := by
      cases h : firstLane (fun r => v.laneEmpty i r) w with
      | none =>
        have := (firstLane_eq_none_iff _ w).mp h r0 hr0
        rw [he0] at this
        exact absurd this (by decide)
      | some r => rfl
    constructor
    · rw [View.cgFindLoop_succ, hm]
      simp [hes]
    · rw [View.cgContainsLoop_succ, hm]
      simp [hes]
  · intro hnm hne
    have hm : firstLane (fun r => v.laneMatches keq k i r) w = none :=
      (firstLane_eq_none_iff _ w).mpr hnm
    have he : firstLane (fun r => v.laneEmpty i r) w = none :=
      (firstLane_eq_none_iff _ w).mpr hne
    constructor
    · rw [View.cgFindLoop_succ, hm, he]
      rfl
    · rw [View.cgContainsLoop_succ, hm, he]
      rfl

/-- Claim C5 (witness): the single window of `tableMix` holds an empty slot
and no match for key 9, so find returns `end()` and contains false. -/
theorem cg_find_contains_window_policy_witness :
    tableMix.cgFindLoop 2 keqInt 9 0 5 = some none
    ∧ tableMix.cgContainsLoop 2 keqInt 9 0 5 = some false :=
  (cg_find_contains_window_policy tableMix 2 keqInt 9 0 4).2.1
    (by decide) ⟨0, by decide, by decide⟩

/-- Unfolding equation of the cooperative find_all loop at positive fuel. -/
theorem View.cgFindAllLoop_succ [DecidableEq K] (v : View K V) (w : Nat)
    (natEq keq : K → K → Bool) (k : K) (i f : Nat) :
    v.cgFindAllLoop w natEq keq k i (f + 1) =
      match firstLane (fun r => v.laneMatchesNat natEq keq k i r) w with
      | some r => some (some (i + r))
      | none =>
        if (firstLane (fun r => v.laneEmptyNat natEq i r) w).isSome
        then some none
        else v.cgFindAllLoop w natEq keq k (next_slot_cg v.capacity w i) f :=
  rfl

section KeyEqualExt

variable [DecidableEq K] (v : View K V) (keq keq' : K → K → Bool)

/-- The single-worker find loop only queries `key_equal` on slot keys that
have already been tested bitwise-distinct from the key sentinel. -/
theorem findLoop_keq_ext
    (hagree : ∀ a b, a ≠ v.empty_key_sentinel → keq a b = keq' a b) (k : K) :
    ∀ fuel i, v.findLoop keq k i fuel = v.findLoop keq' k i fuel := by
  intro fuel
  induction fuel with
  | zero => intro i; rfl
  | succ f ih =>
    intro i
    rw [View.findLoop_succ, View.findLoop_succ]
    by_cases hb : bitwise_compare (v.slotAt i).key v.empty_key_sentinel = true
    · simp [hb]
    · have hne : (v.slotAt i).key ≠ v.empty_key_sentinel := by
        simpa [bitwise_compare] using hb
      rw [hagree _ k hne]
      simp [hb, ih]

/-- Same for the single-worker contains loop. -/
theorem containsLoop_keq_ext
    (hagree : ∀ a b, a ≠ v.empty_key_sentinel → keq a b = keq' a b) (k : K) :
    ∀ fuel i, v.containsLoop keq k i fuel = v.containsLoop keq' k i fuel := by
  intro fuel
  induction fuel with
  | zero => intro i; rfl
  | succ f ih =>
    intro i
    rw [View.containsLoop_succ, View.containsLoop_succ]
    by_cases hb : bitwise_compare (v.slotAt i).key v.empty_key_sentinel = true
    · simp [hb]
    · have hne : (v.slotAt i).key ≠ v.empty_key_sentinel := by
        simpa [bitwise_compare] using hb
      rw [hagree _ k hne]
      simp [hb, ih]

/-- The cooperative match predicate queries `key_equal` only behind the
bitwise emptiness guard. -/
theorem laneMatches_keq_ext
    (hagree : ∀ a b, a ≠ v.empty_key_sentinel → keq a b = keq' a b)
    (k : K) (i r : Nat) :
    v.laneMatches keq k i r = v.laneMatches keq' k i r := by
  unfold View.laneMatches View.laneEmpty
  by_cases hb : bitwise_compare (v.slotAt (i + r)).key v.empty_key_sentinel = true
  · simp [hb]
  · have hne : (v.slotAt (i + r)).key ≠ v.empty_key_sentinel := by
      simpa [bitwise_compare] using hb
    rw [hagree _ k hne]

/-- The find_all match predicate queries `key_equal` only behind its
(`operator==`-based) emptiness guard; when that equality is reflexive at the
sentinel, a sentinel slot key never reaches `key_equal`. -/
theorem laneMatchesNat_keq_ext (natEq : K → K → Bool)
    (hagree : ∀ a b, a ≠ v.empty_key_sentinel → keq a b = keq' a b)
    (hrefl : natEq v.empty_key_sentinel v.empty_key_sentinel = true)
    (k : K) (i r : Nat) :
    v.laneMatchesNat natEq keq k i r = v.laneMatchesNat natEq keq' k i r := by
  unfold View.laneMatchesNat View.laneEmptyNat
  by_cases hk : (v.slotAt (i + r)).key = v.empty_key_sentinel
  · rw [hk, hrefl]
    simp
  · rw [hagree _ k hk]

/-- Same for the cooperative find loop. -/
theorem cgFindLoop_keq_ext
    (hagree : ∀ a b, a ≠ v.empty_key_sentinel → keq a b = keq' a b)
    (w : Nat) (k : K) :
    ∀ fuel i, v.cgFindLoop w keq k i fuel = v.cgFindLoop w keq' k i fuel := by
  intro fuel
  induction fuel with
  | zero => intro i; rfl
  | succ f ih =>
    intro i
    rw [View.cgFindLoop_succ, View.cgFindLoop_succ]
    have hfun : (fun r => v.laneMatches keq k i r) =
        (fun r => v.laneMatches keq' k i r) :=
      funext (fun r => laneMatches_keq_ext v keq keq' hagree k i r)
    rw [hfun]
    cases firstLane (fun r => v.laneMatches keq' k i r) w with
    | some r => rfl
    | none => simp [ih]

/-- Same for the cooperative contains loop. -/
theorem cgContainsLoop_keq_ext
    (hagree : ∀ a b, a ≠ v.empty_key_sentinel → keq a b = keq' a b)
    (w : Nat) (k : K) :
    ∀ fuel i,
      v.cgContainsLoop w keq k i fuel = v.cgContainsLoop w keq' k i fuel := by
  intro fuel
  induction fuel with
  | zero => intro i; rfl
  | succ f ih =>
    intro i
    rw [View.cgContainsLoop_succ, View.cgContainsLoop_succ]
    have hfun : (fun r => v.laneMatches keq k i r) =
        (fun r => v.laneMatches keq' k i r) :=
      funext (fun r => laneMatches_keq_ext v keq keq' hagree k i r)
    rw [hfun]
    simp [ih]

/-- Same for the cooperative find_all loop. -/
theorem cgFindAllLoop_keq_ext (natEq : K → K → Bool)
    (hagree : ∀ a b, a ≠ v.empty_key_sentinel → keq a b = keq' a b)
    (hrefl : natEq v.empty_key_sentinel v.empty_key_sentinel = true)
    (w : Nat) (k : K) :
    ∀ fuel i,
      v.cgFindAllLoop w natEq keq k i fuel =
        v.cgFindAllLoop w natEq keq' k i fuel := by
  intro fuel
  induction fuel with
  | zero => intro i; rfl
  | succ f ih =>
    intro i
    rw [View.cgFindAllLoop_succ, View.cgFindAllLoop_succ]
    have hfun : (fun r => v.laneMatchesNat natEq keq k i r) =
        (fun r => v.laneMatchesNat natEq keq' k i r) :=
      funext (fun r =>
        laneMatchesNat_keq_ext v keq keq' natEq hagree hrefl k i r)
    rw [hfun]
    cases firstLane (fun r => v.laneMatchesNat natEq keq' k i r) w with
    | some r => rfl
    | none => simp [ih]

/-- Same for the enumeration-and-count loops (whose cursor advance is the
single-worker find loop). -/
theorem countLoop_keq_ext
    (hagree : ∀ a b, a ≠ v.empty_key_sentinel → keq a b = keq' a b)
    (k : K) (innerFuel : Nat) :
    ∀ fuel c, v.countLoop keq k innerFuel c fuel =
      v.countLoop keq' k innerFuel c fuel := by
  intro fuel
  induction fuel with
  | zero =>
    intro c
    match c with
    | none => rfl
    | some none => rfl
    | some (some i) => rfl
  | succ f ih =>
    intro c
    match c with
    | none => rfl
    | some none => rfl
    | some (some i) =>
      show (v.countLoop keq k innerFuel
          (v.cursorNext keq k i innerFuel) f).map (· + 1) = _
      unfold View.cursorNext
      rw [findLoop_keq_ext v keq keq' hagree k innerFuel, ih]
      rfl

/-- Same for the match-list loop. -/
theorem matchListLoop_keq_ext
    (hagree : ∀ a b, a ≠ v.empty_key_sentinel → keq a b = keq' a b)
    (k : K) (innerFuel : Nat) :
    ∀ fuel c, v.matchListLoop keq k innerFuel c fuel =
      v.matchListLoop keq' k innerFuel c fuel := by
  intro fuel
  induction fuel with
  | zero =>
    intro c
    match c with
    | none => rfl
    | some none => rfl
    | some (some i) => rfl
  | succ f ih =>
    intro c
    match c with
    | none => rfl
    | some none => rfl
    | some (some i) =>
      show (v.matchListLoop keq k innerFuel
          (v.cursorNext keq k i innerFuel) f).map (i :: ·) = _
      unfold View.cursorNext
      rw [findLoop_keq_ext v keq keq' hagree k innerFuel, ih]
      rfl

end KeyEqualExt

/-- Claim C6: `key_equal` is never invoked on a key equal to
`empty_key_sentinel`: every slot key is first tested against the sentinel
and `key_equal` is evaluated only on non-sentinel slot keys (its second
argument is always the caller's queried key).  Consequently any two
`key_equal` functions agreeing on non-sentinel slot keys make find,
contains, count and find_all behave identically — the behaviour on the
sentinel is unobservable (for find_all the sentinel must compare equal to
itself under the key type's `operator==`, which guards that loop). -/
theorem key_equal_not_applied_to_sentinel [DecidableEq K] (v : View K V)
    (keq keq' natEq : K → K → Bool)
    (hagree : ∀ a b, a ≠ v.empty_key_sentinel → keq a b = keq' a b)
    (hrefl : natEq v.empty_key_sentinel v.empty_key_sentinel = true) :
    (∀ k i fuel, v.findLoop keq k i fuel = v.findLoop keq' k i fuel)
    ∧ (∀ k i fuel,
        v.containsLoop keq k i fuel = v.containsLoop keq' k i fuel)
    ∧ (∀ w k i fuel,
        v.cgFindLoop w keq k i fuel = v.cgFindLoop w keq' k i fuel)
    ∧ (∀ w k i fuel,
        v.cgContainsLoop w keq k i fuel = v.cgContainsLoop w keq' k i fuel)
    ∧ (∀ w k i fuel,
        v.cgFindAllLoop w natEq keq k i fuel =
          v.cgFindAllLoop w natEq keq' k i fuel)
    ∧ (∀ k innerFuel c fuel,
        v.countLoop keq k innerFuel c fuel =
          v.countLoop keq' k innerFuel c fuel)
    ∧ (∀ k innerFuel c fuel,
        v.matchListLoop keq k innerFuel c fuel =
          v.matchListLoop keq' k innerFuel c fuel) :=
  ⟨fun k i fuel => findLoop_keq_ext v keq keq' hagree k fuel i,
   fun k i fuel => containsLoop_keq_ext v keq keq' hagree k fuel i,
   fun w k i fuel => cgFindLoop_keq_ext v keq keq' hagree w k fuel i,
   fun w k i fuel => cgContainsLoop_keq_ext v keq keq' hagree w k fuel i,
   fun w k i fuel =>
     cgFindAllLoop_keq_ext v keq keq' natEq hagree hrefl w k fuel i,
   fun k innerFuel c fuel =>
     countLoop_keq_ext v keq keq' hagree k innerFuel fuel c,
   fun k innerFuel c fuel =>
     matchListLoop_keq_ext v keq keq' hagree k innerFuel fuel c⟩

/-- Claim C6 (witness): a `key_equal` that is perturbed arbitrarily on the
sentinel key `-1` gives the very same find result on `tableDup`. -/
theorem key_equal_not_applied_to_sentinel_witness :
    tableDup.findLoop keqInt 1 0 20 =
      tableDup.findLoop (fun a b => if a = -1 then !(keqInt a b) else keqInt a b)
        1 0 20 :=
  (key_equal_not_applied_to_sentinel tableDup keqInt
    (fun a b => if a = -1 then !(keqInt a b) else keqInt a b) keqInt
    (fun a b h => by simp [tableDup] at h; simp [h])
    (by decide)).1 1 0 20

/-- Claim C10: the `DUPLICATE` member of `insert_result` is unreachable.
The only producer of an `insert_result` in the insert protocols is the
elected lane's attempt of the cooperative insert, whose status starts at
`CONTINUE` (line 273) and is only ever set to `SUCCESS` (line 293); whatever
it returns is never `DUPLICATE`. -/
theorem insert_result_duplicate_unreachable {T : Type} [DecidableEq T]
    (vt : View T T) (k vl : T) (loc fuel : Nat) (r : insert_result)
    (t : View T T) (h : vt.cgWindowAttempt k vl loc fuel = some (r, t)) :
    r ≠ insert_result.DUPLICATE := by
  unfold View.cgWindowAttempt at h
  by_cases hk : (vt.slotAt loc).key = vt.empty_key_sentinel
  · simp only [hk, if_true] at h
    cases hv : valueRetryStatic vt.empty_value_sentinel
        (vt.slotAt loc).value fuel with
    | none => rw [hv] at h; exact Option.noConfusion h
    | some u =>
      rw [hv] at h
      simp at h
      rw [← h.1]
      decide
  · simp only [hk, if_false] at h
    simp at h
    rw [← h.1]
    decide

/-- Claim C10 (witness): a successful attempt on the empty table yields
`SUCCESS`, which is not `DUPLICATE`. -/
theorem insert_result_duplicate_unreachable_witness :
    insert_result.SUCCESS ≠ insert_result.DUPLICATE :=
  insert_result_duplicate_unreachable tableEmptySame 5 14 0 3
    insert_result.SUCCESS (tableEmptySame.setSlot 0 ⟨5, 14⟩) (by decide)

/-- Counting and listing the cursor iteration agree step by step. -/
theorem countLoop_eq_length_matchListLoop [DecidableEq K] (v : View K V)
    (keq : K → K → Bool) (k : K) (innerFuel : Nat) :
    ∀ fuel c, v.countLoop keq k innerFuel c fuel =
      (v.matchListLoop keq k innerFuel c fuel).map List.length := by
  intro fuel
  induction fuel with
  | zero =>
    intro c
    match c with
    | none => rfl
    | some none => rfl
    | some (some i) => rfl
  | succ f ih =>
    intro c
    match c with
    | none => rfl
    | some none => rfl
    | some (some i) =>
      show (v.countLoop keq k innerFuel
          (v.cursorNext keq k i innerFuel) f).map (· + 1) =
        ((v.matchListLoop keq k innerFuel
          (v.cursorNext keq k i innerFuel) f).map (i :: ·)).map List.length
      rw [ih]
      cases v.matchListLoop keq k innerFuel
          (v.cursorNext keq k i innerFuel) f with
      | none => rfl
      | some l => simp

/-- Claim C7: for every key and fixed table state, `count` returns exactly
the length of the sequence of matches produced by iterating the cursor
returned by `find_all` until `end()`, in both the group-cooperative flavour
and the single-worker flavour. -/
theorem count_eq_find_all_length [DecidableEq K] (v : View K V) :
    (∀ (w : Nat) (hash : K → Nat) (natEq keq : K → K → Bool) (k : K)
        (innerFuel fuel : Nat),
      v.cgCount w hash natEq keq k innerFuel fuel =
        (v.cgFindAllList w hash natEq keq k innerFuel fuel).map List.length)
    ∧ (∀ (hash : K → Nat) (keq : K → K → Bool) (k : K)
        (innerFuel fuel : Nat),
      v.countScalar hash keq k innerFuel fuel =
        (v.findAllScalarList hash keq k innerFuel fuel).map List.length) :=
  ⟨fun w hash natEq keq k innerFuel fuel =>
    countLoop_eq_length_matchListLoop v keq k innerFuel fuel
      (v.cgFindAll w hash natEq keq k innerFuel),
   fun hash keq k innerFuel fuel =>
    countLoop_eq_length_matchListLoop v keq k innerFuel fuel
      (v.findAllScalar hash keq k innerFuel)⟩

/-- Claim C7 (witness): on the table holding key 1 three times, the
single-worker count equals the length of the enumerated match list. -/
theorem count_eq_find_all_length_witness :
    tableDup.countScalar (fun _ => 0) keqInt 1 20 20 =
      (tableDup.findAllScalarList (fun _ => 0) keqInt 1 20 20).map
        List.length :=
  (count_eq_find_all_length tableDup).2 (fun _ => 0) keqInt 1 20 20

/-- Claim C8 (code bug): empty-slot detection is bit-pattern based and
identical in `find` and `contains`, but `find_all` (source line 597) uses the
key type's `operator==` instead of `detail::bitwise_compare`.  On a
float-like key type where negative zero equals positive zero without sharing
its bit pattern, a stored negative-zero key with sentinel positive zero is
non-empty to `find`, `contains` (which probe past it and locate `kFloat` at
slot 2) yet empty to `find_all`, which stops and reports no match — the
detections are neither all bit-pattern based nor identical. -/
theorem find_all_sentinel_test_not_bitwise :
    bitwise_compare (tableFloat.slotAt 0).key
        tableFloat.empty_key_sentinel = false
    ∧ floatEq (tableFloat.slotAt 0).key tableFloat.empty_key_sentinel = true
    ∧ tableFloat.findLoop floatEq kFloat 0 9 = some (some 2)
    ∧ tableFloat.containsLoop floatEq kFloat 0 9 = some true
    ∧ tableFloat.cgFindLoop 2 floatEq kFloat 0 9 = some (some 2)
    ∧ tableFloat.cgContainsLoop 2 floatEq kFloat 0 9 = some true
    ∧ tableFloat.cgFindAllLoop 2 floatEq floatEq kFloat 0 9 = some none := by
  decide

/-- Unfolding equation of the single-worker insert loop at positive fuel. -/
theorem View.insertLoop_succ [DecidableEq K] [DecidableEq V] (v : View K V)
    (keq : K → K → Bool) (k : K) (vl : V) (i f : Nat) :
    v.insertLoop keq k vl i (f + 1) =
      if (v.slotAt i).key = v.empty_key_sentinel then
        match valueRetryStatic v.empty_value_sentinel (v.slotAt i).value
            (f + 1) with
        | some _ => some (v.setSlot i ⟨k, vl⟩)
        | none => none
      else v.insertLoop keq k vl (next_slot v.capacity i) f := rfl

/-- Unfolding equation of the cooperative insert loop at positive fuel. -/
theorem View.cgInsertLoop_succ {T : Type} [DecidableEq T] (vt : View T T)
    (w : Nat) (keq : T → T → Bool) (k vl : T) (i f : Nat) :
    vt.cgInsertLoop w keq k vl i (f + 1) =
      match firstLane
          (fun r => vt.cgInsertEmptyTest (i + 2 * r)
            || vt.cgInsertEmptyTest (i + 2 * r + 1)) w with
      | none => vt.cgInsertLoop w keq k vl (next_slot_cg vt.capacity (2 * w) i) f
      | some src =>
        match vt.cgWindowAttempt k vl
            (i + 2 * src + (if vt.cgInsertEmptyTest (i + 2 * src) then 0 else 1))
            (f + 1) with
        | none => none
        | some (insert_result.SUCCESS, t) => some t
        | some (_, t) => t.cgInsertLoop w keq k vl i f := rfl

/-- The elected lane's attempt either commits (`SUCCESS`, key CAS from the
key sentinel) or leaves the table unchanged (`CONTINUE`, key CAS lost). -/
theorem View.cgWindowAttempt_cases {T : Type} [DecidableEq T] (vt : View T T)
    (k vl : T) (loc f : Nat) (r : insert_result) (t : View T T)
    (h : vt.cgWindowAttempt k vl loc f = some (r, t)) :
    (r = insert_result.SUCCESS ∧ t = vt.setSlot loc ⟨k, vl⟩
      ∧ (vt.slotAt loc).key = vt.empty_key_sentinel)
    ∨ (r = insert_result.CONTINUE ∧ t = vt
      ∧ (vt.slotAt loc).key ≠ vt.empty_key_sentinel) := by
  unfold View.cgWindowAttempt at h
  by_cases hk : (vt.slotAt loc).key = vt.empty_key_sentinel
  · rw [if_pos hk] at h
    cases hv : valueRetryStatic vt.empty_value_sentinel
        (vt.slotAt loc).value f with
    | none =>
      rw [hv] at h
      exact absurd h (by simp)
    | some u =>
      rw [hv] at h
      have hp := Option.some.inj h
      left
      exact ⟨(congrArg Prod.fst hp).symm, (congrArg Prod.snd hp).symm, hk⟩
  · rw [if_neg hk] at h
    have hp := Option.some.inj h
    right
    exact ⟨(congrArg Prod.fst hp).symm, (congrArg Prod.snd hp).symm, hk⟩

/-- Cooperative insert step: no lane of the window sees an empty slot, the
group advances one window. -/
theorem View.cgInsertLoop_step_noEmpty {T : Type} [DecidableEq T]
    (vt : View T T) (w : Nat) (keq : T → T → Bool) (k vl : T) (i f : Nat)
    (hfl : firstLane
      (fun r => vt.cgInsertEmptyTest (i + 2 * r)
        || vt.cgInsertEmptyTest (i + 2 * r + 1)) w = none) :
    vt.cgInsertLoop w keq k vl i (f + 1) =
      vt.cgInsertLoop w keq k vl (next_slot_cg vt.capacity (2 * w) i) f := by
  rw [View.cgInsertLoop_succ, hfl]

/-- Cooperative insert step: the elected lane's attempt succeeds, the group
returns the updated table. -/
theorem View.cgInsertLoop_step_success {T : Type} [DecidableEq T]
    (vt : View T T) (w : Nat) (keq : T → T → Bool) (k vl : T)
    (i f src : Nat) (t : View T T)
    (hfl : firstLane
      (fun r => vt.cgInsertEmptyTest (i + 2 * r)
        || vt.cgInsertEmptyTest (i + 2 * r + 1)) w = some src)
    (hat : vt.cgWindowAttempt k vl
      (i + 2 * src + (if vt.cgInsertEmptyTest (i + 2 * src) then 0 else 1))
      (f + 1) = some (insert_result.SUCCESS, t)) :
    vt.cgInsertLoop w keq k vl i (f + 1) = some t := by
  rw [View.cgInsertLoop_succ, hfl]
  simp only [hat]

/-- Cooperative insert step: the elected lane's attempt reports `CONTINUE`,
all lanes retry the same window on the (unchanged) table. -/
theorem View.cgInsertLoop_step_continue {T : Type} [DecidableEq T]
    (vt : View T T) (w : Nat) (keq : T → T → Bool) (k vl : T)
    (i f src : Nat) (t : View T T)
    (hfl : firstLane
      (fun r => vt.cgInsertEmptyTest (i + 2 * r)
        || vt.cgInsertEmptyTest (i + 2 * r + 1)) w = some src)
    (hat : vt.cgWindowAttempt k vl
      (i + 2 * src + (if vt.cgInsertEmptyTest (i + 2 * src) then 0 else 1))
      (f + 1) = some (insert_result.CONTINUE, t)) :
    vt.cgInsertLoop w keq k vl i (f + 1) =
      t.cgInsertLoop w keq k vl i f := by
  rw [View.cgInsertLoop_succ, hfl]
  simp only [hat]

/-- Cooperative insert step: the hypothetical `DUPLICATE` status would also
retry the same window. -/
theorem View.cgInsertLoop_step_dup {T : Type} [DecidableEq T]
    (vt : View T T) (w : Nat) (keq : T → T → Bool) (k vl : T)
    (i f src : Nat) (t : View T T)
    (hfl : firstLane
      (fun r => vt.cgInsertEmptyTest (i + 2 * r)
        || vt.cgInsertEmptyTest (i + 2 * r + 1)) w = some src)
    (hat : vt.cgWindowAttempt k vl
      (i + 2 * src + (if vt.cgInsertEmptyTest (i + 2 * src) then 0 else 1))
      (f + 1) = some (insert_result.DUPLICATE, t)) :
    vt.cgInsertLoop w keq k vl i (f + 1) =
      t.cgInsertLoop w keq k vl i f := by
  rw [View.cgInsertLoop_succ, hfl]
  simp only [hat]

/-- Cooperative insert step: the elected lane stuck in the value retry loop
yields no result. -/
theorem View.cgInsertLoop_step_stuck {T : Type} [DecidableEq T]
    (vt : View T T) (w : Nat) (keq : T → T → Bool) (k vl : T)
    (i f src : Nat)
    (hfl : firstLane
      (fun r => vt.cgInsertEmptyTest (i + 2 * r)
        || vt.cgInsertEmptyTest (i + 2 * r + 1)) w = some src)
    (hat : vt.cgWindowAttempt k vl
      (i + 2 * src + (if vt.cgInsertEmptyTest (i + 2 * src) then 0 else 1))
      (f + 1) = none) :
    vt.cgInsertLoop w keq k vl i (f + 1) = none := by
  rw [View.cgInsertLoop_succ, hfl]
  simp only [hat]

/-- Claim C9: the insert operations never invoke the caller-supplied
`key_equal` (the result is the same for any two `key_equal` functions), and
a terminating insert commits by a key CAS from `empty_key_sentinel`: the
resulting table is exactly the input table with the pair written into one
slot whose key field previously equalled the key sentinel, every other slot
— in particular every slot with a non-empty key field — left unchanged. -/
theorem insert_commits_only_on_empty_slots {T : Type} [DecidableEq K]
    [DecidableEq V] [DecidableEq T] (v : View K V) (vt : View T T)
    (keq keq' : K → K → Bool) (keqt keqt' : T → T → Bool)
    (k : K) (vl : V) (kt vlt : T)
    (hcap : 0 < v.capacity) (hcapt : 0 < vt.capacity) :
    (∀ i fuel, v.insertLoop keq k vl i fuel = v.insertLoop keq' k vl i fuel)
    ∧ (∀ w i fuel, vt.cgInsertLoop w keqt kt vlt i fuel =
        vt.cgInsertLoop w keqt' kt vlt i fuel)
    ∧ (∀ i fuel v0, v.insertLoop keq k vl i fuel = some v0 →
        ∃ j, j < v.capacity ∧ (v.slotAt j).key = v.empty_key_sentinel
          ∧ v0 = v.setSlot j ⟨k, vl⟩
          ∧ ∀ m, m % v.capacity ≠ j → v0.slotAt m = v.slotAt m)
    ∧ (∀ w i fuel t0, vt.cgInsertLoop w keqt kt vlt i fuel = some t0 →
        ∃ j, j < vt.capacity ∧ (vt.slotAt j).key = vt.empty_key_sentinel
          ∧ t0 = vt.setSlot j ⟨kt, vlt⟩
          ∧ ∀ m, m % vt.capacity ≠ j → t0.slotAt m = vt.slotAt m) := by
  refine ⟨?_, ?_, ?_, ?_⟩
  · intro i fuel
    induction fuel generalizing i with
    | zero => rfl
    | succ f ih =>
      rw [View.insertLoop_succ, View.insertLoop_succ, ih]
  · intro w i fuel
    induction fuel generalizing i with
    | zero => rfl
    | succ f ih =>
      cases hfl : firstLane
          (fun r => vt.cgInsertEmptyTest (i + 2 * r)
            || vt.cgInsertEmptyTest (i + 2 * r + 1)) w with
      | none =>
        rw [View.cgInsertLoop_step_noEmpty vt w keqt kt vlt i f hfl,
          View.cgInsertLoop_step_noEmpty vt w keqt' kt vlt i f hfl]
        exact ih _
      | some src =>
        cases hat : vt.cgWindowAttempt kt vlt
            (i + 2 * src + (if vt.cgInsertEmptyTest (i + 2 * src) then 0 else 1))
            (f + 1) with
        | none =>
          rw [View.cgInsertLoop_step_stuck vt w keqt kt vlt i f src hfl hat,
            View.cgInsertLoop_step_stuck vt w keqt' kt vlt i f src hfl hat]
        | some p =>
          obtain ⟨r, t⟩ := p
          rcases View.cgWindowAttempt_cases vt kt vlt _ _ r t hat with
            ⟨hr, ht, hkey⟩ | ⟨hr, ht, hkey⟩
          · subst hr
            rw [View.cgInsertLoop_step_success vt w keqt kt vlt i f src t
                hfl hat,
              View.cgInsertLoop_step_success vt w keqt' kt vlt i f src t
                hfl hat]
          · subst hr
            rw [View.cgInsertLoop_step_continue vt w keqt kt vlt i f src t
                hfl hat,
              View.cgInsertLoop_step_continue vt w keqt' kt vlt i f src t
                hfl hat, ht]
            exact ih i
  · intro i fuel v0 h
    induction fuel generalizing i with
    | zero => exact absurd h (by simp [View.insertLoop])
    | succ f ih =>
      rw [View.insertLoop_succ] at h
      by_cases hk : (v.slotAt i).key = v.empty_key_sentinel
      · rw [if_pos hk] at h
        cases hv : valueRetryStatic v.empty_value_sentinel
            (v.slotAt i).value (f + 1) with
        | none =>
          rw [hv] at h
          exact absurd h (by simp)
        | some u =>
          rw [hv] at h
          have hv0 : v0 = v.setSlot i ⟨k, vl⟩ := (Option.some.inj h).symm
          refine ⟨i % v.capacity, Nat.mod_lt i hcap, ?_, ?_, ?_⟩
          · have hsl : v.slotAt (i % v.capacity) = v.slotAt i := by
              have := v.slotAt_mod_add i 0
              simpa using this
            rw [hsl]
            exact hk
          · rw [hv0, View.setSlot_mod]
          · intro m hm
            rw [hv0]
            exact View.slotAt_setSlot_ne v i m ⟨k, vl⟩ (fun hc => hm hc.symm)
      · rw [if_neg hk] at h
        exact ih _ h
  · intro w i fuel t0 h
    induction fuel generalizing i with
    | zero => exact absurd h (by simp [View.cgInsertLoop])
    | succ f ih =>
      cases hfl : firstLane
          (fun r => vt.cgInsertEmptyTest (i + 2 * r)
            || vt.cgInsertEmptyTest (i + 2 * r + 1)) w with
      | none =>
        rw [View.cgInsertLoop_step_noEmpty vt w keqt kt vlt i f hfl] at h
        exact ih _ h
      | some src =>
        cases hat : vt.cgWindowAttempt kt vlt
            (i + 2 * src +
              (if vt.cgInsertEmptyTest (i + 2 * src) then 0 else 1))
            (f + 1) with
        | none =>
          rw [View.cgInsertLoop_step_stuck vt w keqt kt vlt i f src
            hfl hat] at h
          exact absurd h (by simp)
        | some p =>
          obtain ⟨r, t⟩ := p
          rcases View.cgWindowAttempt_cases vt kt vlt _ _ r t hat with
            ⟨hr, ht, hkey⟩ | ⟨hr, ht, hkey⟩
          · subst hr
            rw [View.cgInsertLoop_step_success vt w keqt kt vlt i f src t
              hfl hat] at h
            have ht0 : t0 = vt.setSlot
                (i + 2 * src +
                  (if vt.cgInsertEmptyTest (i + 2 * src) then 0 else 1))
                ⟨kt, vlt⟩ := by
              rw [← ht]
              exact (Option.some.inj h).symm
            refine ⟨(i + 2 * src +
                (if vt.cgInsertEmptyTest (i + 2 * src) then 0 else 1)) %
                  vt.capacity,
              Nat.mod_lt _ hcapt, ?_, ?_, ?_⟩
            · have hsl : vt.slotAt
                  ((i + 2 * src +
                    (if vt.cgInsertEmptyTest (i + 2 * src) then 0 else 1)) %
                      vt.capacity) =
                  vt.slotAt
                    (i + 2 * src +
                      (if vt.cgInsertEmptyTest (i + 2 * src) then 0 else 1)) := by
                have := vt.slotAt_mod_add
                  (i + 2 * src +
                    (if vt.cgInsertEmptyTest (i + 2 * src) then 0 else 1)) 0
                simpa using this
              rw [hsl]
              exact hkey
            · rw [ht0, View.setSlot_mod]
            · intro m hm
              rw [ht0]
              exact View.slotAt_setSlot_ne vt _ m ⟨kt, vlt⟩
                (fun hc => hm hc.symm)
          · subst hr
            rw [View.cgInsertLoop_step_continue vt w keqt kt vlt i f src t
              hfl hat, ht] at h
            exact ih i h

/-- Claim C9 (witness): the scalar insert of `(5, 14)` into the empty table
commits into a previously empty slot and leaves every other slot unchanged. -/
theorem insert_commits_only_on_empty_slots_witness :
    ∃ j, j < tableEmptySame.capacity
      ∧ (tableEmptySame.slotAt j).key = tableEmptySame.empty_key_sentinel
      ∧ tableEmptySame.setSlot 0 ⟨5, 14⟩ = tableEmptySame.setSlot j ⟨5, 14⟩
      ∧ ∀ m, m % tableEmptySame.capacity ≠ j →
          (tableEmptySame.setSlot 0 ⟨5, 14⟩).slotAt m =
            tableEmptySame.slotAt m :=
  (insert_commits_only_on_empty_slots tableEmptySame tableEmptySame
    keqInt keqInt keqInt keqInt 5 14 5 14 (by decide) (by decide)).2.2.1
    0 10 (tableEmptySame.setSlot 0 ⟨5, 14⟩) (by decide)

end Cuco
